import Mathlib

/-!
Verification development for the Chat History Synchronization Engine
(extension + backend of the CursorChatSync repository).

The TypeScript sources are shallowly embedded in Lean:

* JavaScript JSON-like values are modelled by the inductive type `JVal`
  (acyclic values, used for the merge engine, the conversation extractor
  and the exclusion filter, which never see cyclic data), and by a
  heap-based model `HVal`/`Heap` (used for the validators, whose cycle
  handling is exactly about object graphs with reference cycles).
* JavaScript numbers that the claims exercise are integers; they are
  modelled as `Int`.  Date parsing of strings is not modelled: a string
  fed to the Date constructor is treated as an invalid date (NaN), which
  matches JavaScript for non-date strings; all claims use numeric
  timestamps.
* `Array.prototype.sort` is stable in JavaScript; it is modelled by
  `List.insertionSort`, which places an element before the later-inserted
  elements it compares equal to, hence is stable in the same way.
* `JSON.stringify` of acyclic values is modelled by `jStr`; the exact
  number formatting of integers agrees with JavaScript, string escaping
  is modelled for the plain characters used in the claims.
-/

/-! ## JSON-like values (acyclic model) -/

/-- Model of a JavaScript value as seen by the merge engine and the
extractor: primitives, arrays and plain objects (field lists in insertion
order, unique keys as produced by object literals). -/
inductive JVal where
  | jnull
  | jundefined
  | jbool (b : Bool)
  | jnum (n : Int)
  | jstr (s : String)
  | jarr (elems : List JVal)
  | jobj (fields : List (String × JVal))

namespace JVal

/-- JavaScript truthiness of a value (0, empty string, null, undefined and
false are falsy; arrays and objects are always truthy). -/
def jsTruthy : JVal → Bool
  | .jnull => false
  | .jundefined => false
  | .jbool b => b
  | .jnum n => n != 0
  | .jstr s => s != ""
  | .jarr _ => true
  | .jobj _ => true

/-- Result of the typeof operator (note typeof null is the string
object in JavaScript). -/
def typeOf : JVal → String
  | .jnull => "object"
  | .jundefined => "undefined"
  | .jbool _ => "boolean"
  | .jnum _ => "number"
  | .jstr _ => "string"
  | .jarr _ => "object"
  | .jobj _ => "object"

/-- Property read v[k].  On objects it is the field value (or undefined
when absent); on any non-object it is undefined.  JavaScript would throw
on null/undefined receivers; the sources only read properties of values
already known to be objects, so that case is modelled as undefined. -/
def jGet : JVal → String → JVal
  | .jobj fields, k => ((fields.find? (fun e => e.1 == k)).map (·.2)).getD .jundefined
  | _, _ => .jundefined

/-- Array test, as Array.isArray. -/
def isArr : JVal → Bool
  | .jarr _ => true
  | _ => false

end JVal

/-- Test for null or undefined, the two values that render empty inside
Array.prototype.toString and are skipped by JSON.stringify in objects. -/
def isNullOrUndefined : JVal → Bool
  | .jnull => true
  | .jundefined => true
  | _ => false

/-- Test for undefined. -/
def isUndefined : JVal → Bool
  | .jundefined => true
  | _ => false

mutual

/-- Model of the String(v) conversion: numbers print in decimal, arrays
join the element strings with commas (null and undefined print as the
empty string inside an array), plain objects print as object markers. -/
def jsToString : JVal → String
  | .jnull => "null"
  | .jundefined => "undefined"
  | .jbool b => if b then "true" else "false"
  | .jnum n => toString n
  | .jstr s => s
  | .jarr vs => jsToStringArr vs
  | .jobj _ => "[object Object]"

/-- Comma-joined rendering of array elements for String(v); null and
undefined elements render as the empty string. -/
def jsToStringArr : List JVal → String
  | [] => ""
  | [v] => if isNullOrUndefined v then "" else jsToString v
  | v :: vs =>
    (if isNullOrUndefined v then "" else jsToString v) ++ "," ++ jsToStringArr vs

end

/-- Minimal JSON string escaping (backslash and double quote); sufficient
for the plain keys and string values the claims exercise. -/
def jEscapeChar (c : Char) : String :=
  if c = '"' then "\\\"" else if c = '\\' then "\\\\" else String.singleton c

/-- Escaped and quoted JSON rendering of a string. -/
def jQuote (s : String) : String :=
  "\"" ++ String.join (s.toList.map jEscapeChar) ++ "\""

mutual

/-- Model of JSON.stringify on acyclic values.  Undefined turns into null
inside arrays and is omitted from objects, as in JavaScript. -/
def jStr : JVal → String
  | .jnull => "null"
  | .jundefined => "undefined"
  | .jbool b => if b then "true" else "false"
  | .jnum n => toString n
  | .jstr s => jQuote s
  | .jarr vs => "[" ++ jStrArr vs ++ "]"
  | .jobj fs => "\x7b" ++ jStrFields fs ++ "\x7d"

/-- Array body of jStr: comma separated, undefined rendered as null. -/
def jStrArr : List JVal → String
  | [] => ""
  | [v] => if isUndefined v then "null" else jStr v
  | v :: vs => (if isUndefined v then "null" else jStr v) ++ "," ++ jStrArr vs

/-- Object body of jStr: fields with undefined values are omitted. -/
def jStrFields : List (String × JVal) → String
  | [] => ""
  | (k, v) :: fs =>
    if isUndefined v then jStrFields fs
    else
      match jStrFields fs with
      | "" => jQuote k ++ ":" ++ jStr v
      | rest => jQuote k ++ ":" ++ jStr v ++ "," ++ rest

end

/-! ## Association-list maps with JavaScript Map semantics

The sources use Map with string keys.  Map.set of an existing key
replaces the value in place (insertion order preserved); a new key is
appended.  We model a Map as a list of key/value pairs in insertion
order. -/

/-- Map.set: replace in place when the key exists, append otherwise. -/
def mapSet : List (String × JVal) → String → JVal → List (String × JVal)
  | [], k, v => [(k, v)]
  | e :: rest, k, v => if e.1 = k then (k, v) :: rest else e :: mapSet rest k v

/-- Map.get, as an Option. -/
def mapGet (m : List (String × JVal)) (k : String) : Option JVal :=
  (m.find? (fun e => e.1 == k)).map (·.2)

/-- Object.entries (also used for the object spread): fields of an
object, index/element pairs of an array, empty for primitives. -/
def jEntries : JVal → List (String × JVal)
  | .jobj fs => fs
  | .jarr vs => vs.enum.map (fun e => (toString e.1, e.2))
  | _ => []

/-! ## Merge engine (extension/src/sync/dbWriter.ts, DbWriter) -/

namespace DbWriter

/-- DbWriter.getItemId: first truthy field among id, conversationId,
chatId, uuid, converted with String(v). -/
def getItemId (item : JVal) : Option String :=
  if (item.jGet "id").jsTruthy then some (jsToString (item.jGet "id"))
  else if (item.jGet "conversationId").jsTruthy then some (jsToString (item.jGet "conversationId"))
  else if (item.jGet "chatId").jsTruthy then some (jsToString (item.jGet "chatId"))
  else if (item.jGet "uuid").jsTruthy then some (jsToString (item.jGet "uuid"))
  else none

/-- DbWriter.getItemTimestamp: first truthy field among timestamp,
createdAt, updatedAt, date, time, lastModified, returned unconverted. -/
def getItemTimestamp (item : JVal) : Option JVal :=
  if (item.jGet "timestamp").jsTruthy then some (item.jGet "timestamp")
  else if (item.jGet "createdAt").jsTruthy then some (item.jGet "createdAt")
  else if (item.jGet "updatedAt").jsTruthy then some (item.jGet "updatedAt")
  else if (item.jGet "date").jsTruthy then some (item.jGet "date")
  else if (item.jGet "time").jsTruthy then some (item.jGet "time")
  else if (item.jGet "lastModified").jsTruthy then some (item.jGet "lastModified")
  else none

/-- Epoch milliseconds of new Date(v) for the value shapes the claims
exercise: numbers are taken as-is, booleans coerce to 0/1, everything
else (string date parsing in particular) is treated as an invalid date
(none, standing for NaN). -/
def dateMillis : JVal → Option Int
  | .jnum n => some n
  | .jbool b => some (if b then 1 else 0)
  | _ => none

/-- The comparison new Date(r) > new Date(e); any NaN date makes the
comparison false. -/
def dateGT (r e : JVal) : Bool :=
  match dateMillis r, dateMillis e with
  | some a, some b => a > b
  | _, _ => false

/-- Key under which mergeArrays stores and looks up an item: its id when
present and truthy as a string (both the lookup and the set guard the id
with a truthiness test, so an id that converts to the empty string falls
through), otherwise its JSON serialization. -/
def itemKey (item : JVal) : String :=
  match getItemId item with
  | some s => if s = "" then jStr item else s
  | none => jStr item

/-- One step of the second loop of mergeArrays, processing a remote item
against the accumulated map. -/
def mergeRemoteItem (m : List (String × JVal)) (remoteItem : JVal) : List (String × JVal) :=
  let key := itemKey remoteItem
  match mapGet m key with
  | none => mapSet m key remoteItem
  | some existingItem =>
    match getItemTimestamp remoteItem, getItemTimestamp existingItem with
    | some rts, some ets => if dateGT rts ets then mapSet m key remoteItem else m
    | some _, none => mapSet m key remoteItem
    | none, _ => m

/-- Comparator of sortByTimestamp as an integer result: items without a
timestamp sort to the end, two timestamps compare by date subtraction
(an unparseable date gives NaN, which the sort treats as 0). -/
def cmpItems (a b : JVal) : Int :=
  match getItemTimestamp a, getItemTimestamp b with
  | none, none => 0
  | none, some _ => 1
  | some _, none => -1
  | some x, some y =>
    match dateMillis x, dateMillis y with
    | some dx, some dy => dx - dy
    | _, _ => 0

/-- The at-most ordering induced by the sortByTimestamp comparator. -/
def itemLe (a b : JVal) : Prop := cmpItems a b ≤ 0

instance : DecidableRel itemLe := fun a b => inferInstanceAs (Decidable (cmpItems a b ≤ 0))

/-- DbWriter.sortByTimestamp, a stable sort by the comparator. -/
def sortByTimestamp (items : List JVal) : List JVal :=
  List.insertionSort itemLe items

/-- DbWriter.mergeArrays: local items enter an id-keyed map first, remote
items then either join, or replace an entry with the same key when their
timestamp is strictly newer (or when only the remote side has one); the
map values are finally sorted by timestamp. -/
def mergeArrays (localArray remoteArray : List JVal) : List JVal :=
  let m1 := localArray.foldl (fun m item => mapSet m (itemKey item) item) []
  let m2 := remoteArray.foldl mergeRemoteItem m1
  sortByTimestamp (m2.map Prod.snd)

/-- Prefix test on character lists (needle first). -/
def prefixAux : List Char → List Char → Bool
  | [], _ => true
  | _ :: _, [] => false
  | a :: as, b :: bs => a == b && prefixAux as bs

/-- Substring occurrence on character lists (haystack first). -/
def containsAux : List Char → List Char → Bool
  | hs, needle =>
    prefixAux needle hs ||
      (match hs with
       | [] => false
       | _ :: t => containsAux t needle)

/-- Model of String.prototype.includes. -/
def strIncludes (s sub : String) : Bool := containsAux s.toList sub.toList

/-- Chat-related key test of the primitive branch of mergeChatHistory. -/
def isChatKey (k : String) : Bool :=
  strIncludes k "chat" || strIncludes k "conversation" || strIncludes k "history"

mutual

/-- The loop body of mergeChatHistory over the remote entries, threading
the accumulated merged object. -/
def mergeFields : List (String × JVal) → List (String × JVal) → List (String × JVal)
  | [], merged => merged
  | (k, rv) :: rest, merged => mergeFields rest (mergeEntry k rv merged)

/-- Merging one remote entry into the accumulated object: arrays merge
with mergeArrays when both sides are arrays, objects recurse when both
sides are plain objects, chat-related scalar keys always take the remote
value, other scalar keys take the remote value unless it is null or
undefined. -/
def mergeEntry (k : String) (rv : JVal) (merged : List (String × JVal)) : List (String × JVal) :=
  let lv := (mapGet merged k).getD .jundefined
  match rv with
  | .jarr rvs =>
    match lv with
    | .jarr lvs => mapSet merged k (.jarr (mergeArrays lvs rvs))
    | _ => mapSet merged k (.jarr rvs)
  | .jobj rfs =>
    match lv with
    | .jobj lfs => mapSet merged k (.jobj (mergeFields rfs lfs))
    | _ => mapSet merged k (.jobj rfs)
  | .jundefined => if isChatKey k then mapSet merged k .jundefined else merged
  | .jnull => if isChatKey k then mapSet merged k .jnull else merged
  | rvPrim => mapSet merged k rvPrim

end

/-- DbWriter.mergeChatHistory: starts from a spread copy of the local
data and folds every remote entry in.  The result is always a plain
object, as in the source. -/
def mergeChatHistory (remoteChatData localChatData : JVal) : JVal :=
  .jobj (mergeFields (jEntries remoteChatData) (jEntries localChatData))

end DbWriter

/-! ## Conversation extractor (backend/src/utils/conversationIdExtractor.ts) -/

namespace ConversationIdExtractor

/-- Wrap of an integer into the signed 32-bit range, as the JavaScript
bitwise operators do. -/
def toInt32 (n : Int) : Int := ((n + 2 ^ 31) % 2 ^ 32) - 2 ^ 31

/-- One loop iteration of simpleHash: hash shifted left by five as a
32-bit value, minus hash, plus the character code, wrapped to 32 bits by
the bitwise and with itself. -/
def hashStep (h : Int) (c : Char) : Int :=
  toInt32 (toInt32 (h * 32) - h + Int.ofNat c.toNat)

/-- Digit characters of Number.prototype.toString with radix 36. -/
def toBase36Digit (n : Nat) : Char :=
  if n < 10 then Char.ofNat (48 + n) else Char.ofNat (87 + n)

/-- Fuel-driven base-36 digit accumulator; 64 units of fuel cover every
32-bit magnitude. -/
def toBase36Aux : Nat → Nat → List Char → List Char
  | 0, _, acc => acc
  | fuel + 1, n, acc =>
    if n = 0 then acc else toBase36Aux fuel (n / 36) (toBase36Digit (n % 36) :: acc)

/-- Number.prototype.toString with radix 36 on a natural number. -/
def toBase36 (n : Nat) : String :=
  if n = 0 then "0" else String.mk (toBase36Aux 64 n [])

/-- The simpleHash function: fold the 32-bit hash step over the character
codes and print the absolute value in base 36.  Character codes are
UTF-16 code units in JavaScript; for the basic-plane characters used here
they coincide with the unicode scalar values Lean provides. -/
def simpleHash (str : String) : String :=
  toBase36 (str.toList.foldl hashStep 0).natAbs

/-- Probe of one id-like field: the converted field value when truthy. -/
def tryIdField (conversation : JVal) (k : String) : Option String :=
  let v := conversation.jGet k
  if v.jsTruthy then some (jsToString v) else none

/-- The extractConversationId function: probe the id-like fields in
order, else hash the JSON serialization of an object (the serialization
of the acyclic values modelled here never throws, so the positional-index
catch branch is unreachable), else fall back to the positional index. -/
def extractConversationId (conversation : JVal) (fallbackIndex : Nat) : String :=
  ((tryIdField conversation "conversationId").orElse fun _ =>
   (tryIdField conversation "chatId").orElse fun _ =>
   (tryIdField conversation "id").orElse fun _ =>
   (tryIdField conversation "uuid").orElse fun _ =>
   (tryIdField conversation "conversation_id").orElse fun _ =>
    tryIdField conversation "chat_id").getD
    (if conversation.jsTruthy && conversation.typeOf == "object" then
      "hash_" ++ simpleHash (jStr conversation)
    else toString fallbackIndex)

/-- The fixed list of recognized conversation-array field names. -/
def conversationKeys : List String :=
  ["conversations", "chats", "history", "messages", "conversationHistory", "chatHistory"]

/-- Registration of every element of an array as a conversation, keyed by
its extracted id (strategy one, also the per-key loop of strategy two). -/
def registerArrayItems (m : List (String × JVal)) (vs : List JVal) : List (String × JVal) :=
  vs.enum.foldl (fun m2 e => mapSet m2 (extractConversationId e.2 e.1) e.2) m

/-- Strategy-four step over one top-level entry: a truthy non-array
object whose nested id is neither empty nor the string 0 registers under
the composite key of field name and nested id. -/
def registerNested (m : List (String × JVal)) (e : String × JVal) : List (String × JVal) :=
  if e.2.jsTruthy && e.2.typeOf == "object" && !e.2.isArr then
    let nestedId := extractConversationId e.2 0
    if nestedId ≠ "" ∧ nestedId ≠ "0" then mapSet m (e.1 ++ "_" ++ nestedId) e.2 else m
  else m

/-- The extractConversations function: arrays register elementwise;
otherwise the recognized conversation-array fields register elementwise,
then the whole value registers under its direct id when that id is truthy
and not the string 0, then nested objects register under composite
keys. -/
def extractConversations (chatData : JVal) : List (String × JVal) :=
  if !chatData.jsTruthy || chatData.typeOf ≠ "object" then []
  else
    match chatData with
    | .jarr vs => registerArrayItems [] vs
    | _ =>
      let m1 := conversationKeys.foldl (fun m key =>
        match chatData.jGet key with
        | .jarr vs => registerArrayItems m vs
        | _ => m) []
      let directId := extractConversationId chatData 0
      let m2 := if directId ≠ "" ∧ directId ≠ "0" then mapSet m1 directId chatData else m1
      (jEntries chatData).foldl registerNested m2

/-- Loop body of reconstructChatData for one recognized field name: when
the field is present, truthy and an array, it is replaced by the filtered
values. -/
def reconstructStep (filteredConversations : List (String × JVal))
    (res : List (String × JVal)) (key : String) : List (String × JVal) :=
  match mapGet res key with
  | some v =>
    if v.jsTruthy && v.isArr then
      mapSet res key (.jarr (filteredConversations.map Prod.snd))
    else res
  | none => res

/-- The reconstructChatData function: arrays are rebuilt from the
filtered values; otherwise a spread copy of the original has each
recognized conversation-array field (when truthy and an array) replaced
by the filtered values. -/
def reconstructChatData (originalData : JVal) (filteredConversations : List (String × JVal)) : JVal :=
  match originalData with
  | .jarr _ => .jarr (filteredConversations.map Prod.snd)
  | _ =>
    .jobj (conversationKeys.foldl (reconstructStep filteredConversations)
      (jEntries originalData))

/-- The filterExcludedConversations function: with falsy data or an empty
exclusion set the input is returned unchanged; otherwise the extracted
conversations are filtered by id and the original structure is
reconstructed around the survivors. -/
def filterExcludedConversations (chatData : JVal) (excludedIds : List String) : JVal :=
  if !chatData.jsTruthy || excludedIds.isEmpty then chatData
  else
    let conversations := extractConversations chatData
    let filtered := conversations.filter (fun e => !excludedIds.contains e.1)
    reconstructChatData chatData filtered

end ConversationIdExtractor

/-! ## Bubble ordering inside reconstructConversations
(extension/src/sync/dbReader.ts) -/

namespace DbReader

/-- One message (bubble) record as the reconstruction sees it: the three
fields probed by the sort comparator, modelled as optional integers, and
the raw store key preserved by the reader under the field named with a
leading underscore. -/
structure Bubble where
  timestamp : Option Int
  createdAt : Option Int
  order : Option Int
  rawKey : String
deriving DecidableEq, Repr

/-- JavaScript or-chaining on an optional numeric field: a missing or
zero value falls through to the default. -/
def jsNumOr (v : Option Int) (d : Int) : Int :=
  match v with
  | some n => if n = 0 then d else n
  | none => d

/-- The sort key of one bubble: timestamp, else createdAt, else order,
else zero, with zero-valued fields falling through as JavaScript falsy
values do. -/
def bubbleTime (b : Bubble) : Int :=
  jsNumOr b.timestamp (jsNumOr b.createdAt (jsNumOr b.order 0))

/-- The at-most ordering induced by the bubble sort comparator. -/
def bubbleLe (a b : Bubble) : Prop := bubbleTime a ≤ bubbleTime b

instance : DecidableRel bubbleLe :=
  fun a b => inferInstanceAs (Decidable (bubbleTime a ≤ bubbleTime b))

instance : IsTotal Bubble bubbleLe := ⟨fun a b => le_total (bubbleTime a) (bubbleTime b)⟩

instance : IsTrans Bubble bubbleLe := ⟨fun _ _ _ => le_trans⟩

/-- The bubble sort inside reconstructConversations: a stable sort on the
derived time, as Array.prototype.sort with the numeric comparator. -/
def sortBubbles (bubbles : List Bubble) : List Bubble :=
  List.insertionSort bubbleLe bubbles

end DbReader

/-! ## Heap model of JavaScript values for the validators

The validators (unnamed parts 012 and 020) are exactly the code whose
behaviour on cyclic object graphs matters, and an inductive value type
cannot represent a cycle.  They are therefore modelled over a heap: a
value is a primitive or a reference into a finite address/object table,
and a self-referencing object is a reference whose target mentions its
own address. -/

/-- Primitive JavaScript value or reference into the heap. -/
inductive HVal where
  | hnull
  | hundefined
  | hbool (b : Bool)
  | hnum (n : Int)
  | hstr (s : String)
  | href (a : Nat)
deriving DecidableEq, Repr

/-- Heap cell: an array of values or a plain object. -/
inductive HObj where
  | harr (elems : List HVal)
  | hobj (fields : List (String × HVal))
deriving DecidableEq, Repr

/-- Address/object table. -/
abbrev Heap := List (Nat × HObj)

/-- Heap lookup by address. -/
def heapFind (h : Heap) (a : Nat) : Option HObj :=
  (h.find? (fun e => e.1 == a)).map (·.2)

/-- JavaScript truthiness over the heap model. -/
def truthyH : HVal → Bool
  | .hnull => false
  | .hundefined => false
  | .hbool b => b
  | .hnum n => n != 0
  | .hstr s => s != ""
  | .href _ => true

/-- Result of the typeof operator over the heap model. -/
def typeofH : HVal → String
  | .hnull => "object"
  | .hundefined => "undefined"
  | .hbool _ => "boolean"
  | .hnum _ => "number"
  | .hstr _ => "string"
  | .href _ => "object"

/-- The element list when the value is an array reference. -/
def getArrH (h : Heap) : HVal → Option (List HVal)
  | .href a =>
    match heapFind h a with
    | some (.harr vs) => some vs
    | _ => none
  | _ => none

/-- Array.isArray over the heap model. -/
def isArrH (h : Heap) (v : HVal) : Bool := (getArrH h v).isSome

/-- The field list when the value is a plain-object reference. -/
def getFieldsH (h : Heap) : HVal → List (String × HVal)
  | .href a =>
    match heapFind h a with
    | some (.hobj fs) => fs
    | _ => []
  | _ => []

/-- Property read v[k] over the heap model (undefined when absent or when
the receiver is not a plain object). -/
def hGet (h : Heap) (v : HVal) (k : String) : HVal :=
  (((getFieldsH h v).find? (fun e => e.1 == k)).map (·.2)).getD .hundefined

/-- Fuel-driven model of JSON.stringify over the heap, returning an
approximate serialized length (separators are not counted exactly; only
the magnitude matters, for the size-warning threshold), or none when a
reference cycle is reached (the case in which JSON.stringify throws its
circular-structure error).  The path
records the addresses currently being serialized, exactly as the
serializer recursion stack does; fuel decreases only when a reference is
entered, so any fuel beyond the heap size is never exhausted before a
cycle is caught by the path check. -/
def serValF (h : Heap) : Nat → List Nat → HVal → Option Nat
  | 0, _, _ => some 0
  | fuel + 1, path, v =>
    match v with
    | .href a =>
      if path.contains a then none
      else
        match heapFind h a with
        | some (.harr vs) =>
          (vs.mapM (fun w => serValF h fuel (a :: path) w)).map (fun sizes => 2 + sizes.sum)
        | some (.hobj fs) =>
          (fs.mapM (fun e =>
            (serValF h fuel (a :: path) e.2).map (fun n => e.1.length + 3 + n))).map
            (fun sizes => 2 + sizes.sum)
        | none => some 0
    | .hnull => some 4
    | .hundefined => some 0
    | .hbool b => some (if b then 4 else 5)
    | .hnum n => some (toString n).length
    | .hstr s => some (s.length + 2)

/-- JSON.stringify on a heap value: succeeds with the serialized length
on acyclic reachable structure, fails (throws, in the source) when a
cycle is reachable. -/
def jsonSerSize (h : Heap) (v : HVal) : Option Nat :=
  serValF h (h.length + 1) [] v

/-! ## Backend chat-data validator (unnamed part 012) -/

namespace BackendValidator

/-- The ChatDataValidationResult record of the backend validator. -/
structure ChatDataValidationResult where
  isValid : Bool
  errors : List String
  warnings : List String
  conversationCount : Nat
deriving DecidableEq, Repr

/-- Length of the first recognized conversation-array field that is
truthy and an array, modelling the for loop with break. -/
def firstConvArrayLen (h : Heap) (chatData : HVal) : Option Nat :=
  ConversationIdExtractor.conversationKeys.findSome? (fun key =>
    if truthyH (hGet h chatData key) && isArrH h (hGet h chatData key) then
      (getArrH h (hGet h chatData key)).map (·.length)
    else none)

/-- The conversation-counting heuristics of the backend validator. -/
def countConversations (h : Heap) (chatData : HVal) : Nat :=
  match getArrH h chatData with
  | some vs => vs.length
  | none =>
    let c := (firstConvArrayLen h chatData).getD 0
    if c = 0 then
      if truthyH (hGet h chatData "id") || truthyH (hGet h chatData "conversationId")
          || truthyH (hGet h chatData "messages") then 1
      else c
    else c

/-- The backend validateChatData function: rejects null/undefined values,
non-objects, and values whose serialization reveals a cycle; otherwise
counts conversations and only warns (size ceiling, zero conversations). -/
def validateChatData (h : Heap) (chatData : HVal) : ChatDataValidationResult :=
  if chatData = .hnull ∨ chatData = .hundefined then
    ⟨false, ["Chat data is null or undefined"], [], 0⟩
  else if typeofH chatData ≠ "object" then
    ⟨false, ["Chat data must be an object, got " ++ typeofH chatData], [], 0⟩
  else
    match jsonSerSize h chatData with
    | none => ⟨false, ["Chat data contains circular references"], [], 0⟩
    | some dataSize =>
      let conversationCount := countConversations h chatData
      let sizeWarnings : List String :=
        if dataSize > 10485760 then ["Chat data is large"] else []
      let emptyWarnings : List String :=
        if conversationCount = 0 then ["No conversations detected in chat data"] else []
      ⟨true, [], sizeWarnings ++ emptyWarnings, conversationCount⟩

end BackendValidator

/-! ## Extension chat-data validator (unnamed part 020) -/

namespace ExtensionValidator

/-- The ChatDataValidationResult record of the extension validator. -/
structure ChatDataValidationResult where
  isValid : Bool
  errors : List String
  warnings : List String
  detectedFormat : Option String
  conversationCount : Nat
  sampleKeys : Option (List String)
deriving DecidableEq, Repr

/-- The ConversationStructure record. -/
structure ConversationStructure where
  hasId : Bool
  hasMessages : Bool
  hasTimestamp : Bool
  idFields : List String
  messageFields : List String
  timestampFields : List String
deriving DecidableEq, Repr

/-- The fixed id-like field names probed by the extension validator. -/
def idFieldNames : List String :=
  ["id", "conversationId", "chatId", "uuid", "conversation_id", "chat_id"]

/-- The fixed message field names. -/
def messageFieldNames : List String :=
  ["messages", "message", "chat", "content", "items"]

/-- The fixed timestamp field names. -/
def timestampFieldNames : List String :=
  ["timestamp", "createdAt", "updatedAt", "date", "time", "lastModified",
   "created_at", "updated_at"]

/-- The validateConversationStructure function: record which id-like,
array-valued message and timestamp fields are defined on the value. -/
def validateConversationStructure (h : Heap) (conversation : HVal) : ConversationStructure :=
  if !truthyH conversation || typeofH conversation ≠ "object" then
    ⟨false, false, false, [], [], []⟩
  else
    let ids := idFieldNames.filter (fun f => hGet h conversation f ≠ .hundefined)
    let msgs := messageFieldNames.filter (fun f =>
      hGet h conversation f ≠ .hundefined && isArrH h (hGet h conversation f))
    let ts := timestampFieldNames.filter (fun f => hGet h conversation f ≠ .hundefined)
    ⟨!ids.isEmpty, !msgs.isEmpty, !ts.isEmpty, ids, msgs, ts⟩

/-- Warnings produced for one element of an array-shaped payload. -/
def arrayItemWarnings (h : Heap) (e : Nat × HVal) : List String :=
  let conv := validateConversationStructure h e.2
  (if !conv.hasId then
    ["Conversation at index " ++ toString e.1 ++ " has no identifiable ID field"]
  else []) ++
  (if !conv.hasMessages then
    ["Conversation at index " ++ toString e.1 ++ " has no messages array"]
  else [])

/-- The first recognized conversation-array field (name and length),
modelling the for loop with break of the object branch. -/
def firstConvKey (h : Heap) (chatData : HVal) : Option (String × Nat) :=
  ConversationIdExtractor.conversationKeys.findSome? (fun key =>
    if truthyH (hGet h chatData key) && isArrH h (hGet h chatData key) then
      (getArrH h (hGet h chatData key)).map (fun vs => (key, vs.length))
    else none)

/-- The extension validateChatData function: rejects only null/undefined
values and non-objects; it never serializes the payload, so reference
cycles are not rejected, only shallow format detection runs. -/
def validateChatData (h : Heap) (chatData : HVal) : ChatDataValidationResult :=
  if chatData = .hnull ∨ chatData = .hundefined then
    ⟨false, ["Chat data is null or undefined"], [], none, 0, none⟩
  else if typeofH chatData ≠ "object" then
    ⟨false, ["Chat data must be an object, got " ++ typeofH chatData], [], none, 0, none⟩
  else
    match getArrH h chatData with
    | some vs =>
      let itemWarnings := (vs.enum.map (arrayItemWarnings h)).flatten
      let emptyWarnings : List String :=
        if vs.length = 0 then ["No conversations detected in chat data"] else []
      ⟨true, [], itemWarnings ++ emptyWarnings, some "array", vs.length, none⟩
    | none =>
      match firstConvKey h chatData with
      | some (key, len) =>
        let emptyWarnings : List String :=
          if len = 0 then ["No conversations detected in chat data"] else []
        ⟨true, [], emptyWarnings, some "object_with_conversations", len, some [key]⟩
      | none =>
        let conv := validateConversationStructure h chatData
        if conv.hasId || conv.hasMessages then
          ⟨true, [], [], some "object_single", 1, none⟩
        else
          let nestedKeys := ((getFieldsH h chatData).filter (fun e =>
            truthyH e.2 && typeofH e.2 == "object" && !isArrH h e.2)).map (·.1)
          if !nestedKeys.isEmpty then
            ⟨true, [],
             ["Detected nested structure - may contain multiple conversations",
              "No conversations detected in chat data"],
             some "nested", 0, some (nestedKeys.take 5)⟩
          else
            ⟨true, [],
             ["Could not detect conversation structure in chat data",
              "No conversations detected in chat data"],
             some "unknown", 0, none⟩

end ExtensionValidator

/-! ## Backup and restore manager (extension/src/sync/backupService.ts)

File system model: the three local-store source files the reader exposes
(global storage, workspace storage, workspace .cursor) are content
slots; a slot holds some content when the path resolves and the file
exists.  The workspace paths may be unknown (no workspace open).  The
SHA-256 checksum is collision-free on every content the claims exercise
and is modelled by the content itself, which preserves exactly the
equality tests the source performs.  Backup directories are records of
an id, a creation timestamp, the backed-up flags from backup-info.json,
the per-source recorded checksums from metadata.json and the copied file
contents. -/

namespace BackupService

/-- State of one source inside a backup directory: the backed-up flag of
backup-info.json, the copied file content (none when the file is absent
from the directory), and the checksum entry of metadata.json. -/
structure SrcSlot where
  flag : Bool
  stored : Option String
  meta : Option String
deriving DecidableEq, Repr

/-- One backup directory. -/
structure BackupRec where
  bid : String
  ts : Nat
  wpath : Option String
  g : SrcSlot
  ws : SrcSlot
  wc : SrcSlot
deriving DecidableEq, Repr

/-- Complete modelled state: live store files, path knowledge, the
fallback original workspace location, the backup store, the retention
bound and the timestamp counter used for fresh backup ids. -/
structure FsState where
  liveG : Option String
  liveWs : Option String
  liveWc : Option String
  wsKnown : Bool
  wcKnown : Bool
  workspacePath : Option String
  origWc : Option String
  backups : List BackupRec
  maxBackups : Nat
  nextTs : Nat
deriving DecidableEq, Repr

/-- SHA-256 modelled as an injective function: the content itself. -/
def checksum (content : String) : String := content

/-- Slot produced by backupDatabase for one source: the copy-and-verify
of an existing file always succeeds in the deterministic model, an
unavailable source is skipped with its flag cleared. -/
def mkSlot : Option String → SrcSlot
  | some content => ⟨true, some content, some (checksum content)⟩
  | none => ⟨false, none, none⟩

/-- Descending-timestamp order used by listBackups. -/
def backupGe (a b : BackupRec) : Prop := b.ts ≤ a.ts

instance : DecidableRel backupGe := fun a b => inferInstanceAs (Decidable (b.ts ≤ a.ts))

/-- The cleanupOldBackups function: when more than maxBackups backups
exist, the ones beyond the newest maxBackups (listBackups order,
timestamp descending) are deleted. -/
def cleanupOldBackups (bs : List BackupRec) (maxB : Nat) : List BackupRec :=
  if bs.length ≤ maxB then bs
  else
    let sorted := List.insertionSort backupGe bs
    let toDelete := (sorted.drop maxB).map (·.bid)
    bs.filter (fun b => !toDelete.contains b.bid)

/-- The createBackup function: copy every available source into a fresh
backup directory with its checksum recorded, write the metadata, then
prune old backups beyond the retention count. -/
def createBackup (st : FsState) : FsState × BackupRec :=
  let fresh : BackupRec :=
    { bid := "backup-" ++ toString st.nextTs
      ts := st.nextTs
      wpath := st.workspacePath
      g := mkSlot st.liveG
      ws := mkSlot (if st.wsKnown then st.liveWs else none)
      wc := mkSlot (if st.wcKnown then st.liveWc else none) }
  ({ st with
      backups := cleanupOldBackups (fresh :: st.backups) st.maxBackups
      nextTs := st.nextTs + 1 }, fresh)

/-- Verification of one source slot against its metadata entry: entries
absent from metadata.json are skipped, a missing backup file or a
checksum mismatch is an error. -/
def verifySlot (name : String) (s : SrcSlot) : Except String Unit :=
  match s.meta with
  | none => .ok ()
  | some recorded =>
    match s.stored with
    | none => .error ("Backup file missing: " ++ name ++ ".vscdb")
    | some content =>
      if checksum content ≠ recorded then
        .error ("Backup file corrupted: " ++ name ++ ".vscdb (checksum mismatch)")
      else .ok ()

/-- The verifyBackup function over the three sources, in the
metadata.json entry order. -/
def verifyBackup (b : BackupRec) : Except String Unit :=
  match verifySlot "globalStorage" b.g with
  | .error e => .error e
  | .ok _ =>
    match verifySlot "workspaceStorage" b.ws with
    | .error e => .error e
    | .ok _ => verifySlot "workspaceCursor" b.wc

/-- Content of one source file of a backup directory as found on disk at
restore-copy time (after the safety-net backup and its pruning ran): none
when the whole backup directory was pruned away. -/
def storedNow (bs : List BackupRec) (bid : String) (sel : BackupRec → SrcSlot) : Option String :=
  match bs.find? (fun b2 => b2.bid == bid) with
  | some b2 => (sel b2).stored
  | none => none

/-- The restoreBackup function: locate the backup, verify it, take a
safety-net backup of the current state (which prunes old backups), then
copy each backed-up source whose file still exists over its live path;
the workspace .cursor source falls back to the original recorded
workspace location when the current workspace path is unknown. -/
def restoreBackup (st : FsState) (bid : String) : Except String FsState :=
  match st.backups.find? (fun b => b.bid == bid) with
  | none => .error ("Backup " ++ bid ++ " not found")
  | some b =>
    match verifyBackup b with
    | .error e => .error e
    | .ok _ =>
      let st2 := (createBackup st).1
      let st3 :=
        if b.g.flag then
          match storedNow st2.backups bid (·.g) with
          | some content => { st2 with liveG := some content }
          | none => st2
        else st2
      let st4 :=
        if b.ws.flag then
          if st.wsKnown then
            match storedNow st2.backups bid (·.ws) with
            | some content => { st3 with liveWs := some content }
            | none => st3
          else st3
        else st3
      let st5 :=
        if b.wc.flag then
          if st.wcKnown then
            match storedNow st2.backups bid (·.wc) with
            | some content => { st4 with liveWc := some content }
            | none => st4
          else
            if b.wpath.isSome then
              match storedNow st2.backups bid (·.wc) with
              | some content => { st4 with origWc := some content }
              | none => st4
            else st4
        else st4
      .ok st5

end BackupService

/-! ## Auto-lock lifecycle of one sync attempt
(extension/src/sync/dbWriter.ts, SyncManager.syncNow, together with
chatLockService.ts)

One sync attempt is modelled from the point where a project id is known
and auto locking is enabled (the premise of the claim: auto locks were
acquired).  ChatLockService.autoLockConversations catches every
per-conversation createLock failure, and autoUnlockConversations catches
every removeLock failure, so neither ever throws into syncNow; the inner
download/merge/write-back block of syncNow swallows every error, and the
user-interface calls do not throw.  The remaining outcome space of an
attempt is the upload result: success (whose response may carry a
project with a different id, which syncNow stores into the projectId
variable before the final unlock runs), an approval-denied error (early
return after the catch-block unlock), or any other failure (rethrow
after the catch-block unlock).  The attempt is summarized as the trace
of remote lock-API calls it issues. -/

namespace SyncManager

/-- Outcome of the upload call of one attempt. -/
inductive UploadOutcome where
  | ok (echoProject : Option Nat)
  | approvalDenied
  | failed
deriving DecidableEq, Repr

/-- Environment of one attempt: the project id known before upload, the
conversation ids of the outbound payload, which createLock calls the
remote accepts, and the upload outcome. -/
structure SyncEnv where
  preProjectId : Nat
  convIds : List String
  lockOk : String → Bool
  upload : UploadOutcome

/-- Remote lock-API calls recorded by the model. -/
inductive LockEvent where
  | lockCall (pid : Nat) (cid : String) (ok : Bool)
  | unlockCall (pid : Nat) (cid : String)
deriving DecidableEq, Repr

/-- The auto-lock phase: one createLock call per outbound conversation
(failures swallowed), returning the events and the acquired ids that
autoLockConversations reports back to syncNow. -/
def autoLockPhase (env : SyncEnv) : List LockEvent × List String :=
  (env.convIds.map (fun c => .lockCall env.preProjectId c (env.lockOk c)),
   env.convIds.filter env.lockOk)

/-- The project id held by the projectId variable when the unlock step
runs: the id of the project carried by a successful upload response,
otherwise the pre-upload id (on the upload-failure paths the unlock in
the catch block runs before the reassignment could happen). -/
def endProjectId (env : SyncEnv) : Nat :=
  match env.upload with
  | .ok (some p) => p
  | _ => env.preProjectId

/-- The lock-API trace of one sync attempt: lock calls for the outbound
conversations, then — on the success path, the approval-denied path and
the failure path alike — one removeLock call per acquired conversation,
issued with the projectId value current at that point. -/
def syncAttemptEvents (env : SyncEnv) : List LockEvent :=
  let phase := autoLockPhase env
  phase.1 ++ phase.2.map (fun c => .unlockCall (endProjectId env) c)

end SyncManager

/-! ## Claim-side notions and concrete instances -/

/-- Scalar in the sense of the merge claims: any value that is neither an
array nor a plain object (null and undefined included, as they reach the
primitive branch of mergeChatHistory). -/
def isPrimitive : JVal → Bool
  | .jarr _ => false
  | .jobj _ => false
  | _ => true

namespace ConversationIdExtractor

/-- Claim-side notion for the whole-value strategy: the value carries one
of the fixed id-like fields with a truthy value. -/
def carriesIdField (v : JVal) : Bool :=
  ["conversationId", "chatId", "id", "uuid", "conversation_id", "chat_id"].any
    (fun k => (v.jGet k).jsTruthy)

/-- The composite keys that the strategy-four loop of extractConversations
can write for a given field list. -/
def strategy4Keys : List (String × JVal) → List String
  | [] => []
  | e :: fs =>
    if e.2.jsTruthy && e.2.typeOf == "object" && !e.2.isArr then
      let nestedId := extractConversationId e.2 0
      if nestedId ≠ "" ∧ nestedId ≠ "0" then (e.1 ++ "_" ++ nestedId) :: strategy4Keys fs
      else strategy4Keys fs
    else strategy4Keys fs

end ConversationIdExtractor

/-- A heap holding one self-referencing object at address zero. -/
def selfRefHeap : Heap := [(0, .hobj [("self", .href 0)])]

namespace BackupService

/-- A well-formed backup whose recorded checksums all match its stored
contents: one backed-up global-storage file with content old. -/
def pruneDemoBackup : BackupRec :=
  { bid := "backup-0", ts := 0, wpath := none
    g := ⟨true, some "old", some "old"⟩
    ws := ⟨false, none, none⟩
    wc := ⟨false, none, none⟩ }

/-- A state whose retention bound is one backup, holding the demo backup
and a live global store whose content differs from the backed-up one. -/
def pruneDemoState : FsState :=
  { liveG := some "current", liveWs := none, liveWc := none
    wsKnown := false, wcKnown := false
    workspacePath := none, origWc := none
    backups := [pruneDemoBackup], maxBackups := 1, nextTs := 5 }

end BackupService

namespace SyncManager

/-- An attempt in which the upload response remaps the project id from
one to two while one conversation was auto-locked under project one. -/
def remapEnv : SyncEnv :=
  { preProjectId := 1, convIds := ["c1"], lockOk := fun _ => true
    upload := .ok (some 2) }

/-- An attempt that fails at upload with one auto-locked conversation. -/
def failedUploadEnv : SyncEnv :=
  { preProjectId := 1, convIds := ["c1"], lockOk := fun _ => true
    upload := .failed }

end SyncManager

/-! ## Helper lemmas about the map operations -/

theorem mapGet_nil (k : String) : mapGet [] k = none := rfl

theorem mapGet_cons (e : String × JVal) (rest : List (String × JVal)) (k : String) :
    mapGet (e :: rest) k = if e.1 = k then some e.2 else mapGet rest k := by
  by_cases h : e.1 = k
  · rw [mapGet, List.find?_cons_of_pos _ (by simpa using h)]
    simp [h]
  · rw [mapGet, List.find?_cons_of_neg _ (by simpa using h), if_neg h]
    rfl

theorem mapGet_mapSet_self (m : List (String × JVal)) (k : String) (v : JVal) :
    mapGet (mapSet m k v) k = some v := by
  induction m with
  | nil => simp [mapSet, mapGet_cons, mapGet_nil]
  | cons e rest ih =>
    by_cases h : e.1 = k
    · simp [mapSet, h, mapGet_cons]
    · simpa [mapSet, h, mapGet_cons] using ih

theorem mapGet_mapSet_ne (m : List (String × JVal)) (k k2 : String) (v : JVal)
    (h : k ≠ k2) : mapGet (mapSet m k v) k2 = mapGet m k2 := by
  induction m with
  | nil => simp [mapSet, mapGet_cons, mapGet_nil, h]
  | cons e rest ih =>
    by_cases he : e.1 = k
    · subst he
      simp [mapSet, mapGet_cons, h]
    · simp only [mapSet, if_neg he, mapGet_cons]
      by_cases he2 : e.1 = k2
      · simp [he2]
      · simpa [he2] using ih

theorem mapGet_eq_none_of_not_mem (m : List (String × JVal)) (k : String)
    (h : k ∉ m.map Prod.fst) : mapGet m k = none := by
  induction m with
  | nil => rfl
  | cons e rest ih =>
    simp only [List.map_cons, List.mem_cons] at h
    push_neg at h
    have h1 : e.1 ≠ k := fun hh => h.1 hh.symm
    simpa [mapGet_cons, h1] using ih h.2

theorem mapSet_fresh (m : List (String × JVal)) (k : String) (v : JVal)
    (h : k ∉ m.map Prod.fst) : mapSet m k v = m ++ [(k, v)] := by
  induction m with
  | nil => rfl
  | cons e rest ih =>
    simp only [List.map_cons, List.mem_cons] at h
    push_neg at h
    have h1 : e.1 ≠ k := fun hh => h.1 hh.symm
    simp [mapSet, h1, ih h.2]

theorem mem_values_of_mapGet (m : List (String × JVal)) (k : String) (v : JVal)
    (h : mapGet m k = some v) : v ∈ m.map Prod.snd := by
  unfold mapGet at h
  cases hf : m.find? (fun e => e.1 == k) with
  | none => rw [hf] at h; cases h
  | some e =>
    rw [hf] at h
    have hm := List.mem_of_find?_eq_some hf
    cases h
    exact List.mem_map_of_mem Prod.snd hm

/-! ## Claim C10 -/

/-- C10: every result returned by validateChatData — in the backend
validator and in the extension validator alike — satisfies the invariant
that isValid is true exactly when the errors list is empty. -/
theorem claim_C10_isValid_iff_errors_empty (h : Heap) (v : HVal) :
    ((BackendValidator.validateChatData h v).isValid = true ↔
      (BackendValidator.validateChatData h v).errors = []) ∧
    ((ExtensionValidator.validateChatData h v).isValid = true ↔
      (ExtensionValidator.validateChatData h v).errors = []) := by
  constructor
  · unfold BackendValidator.validateChatData
    repeat' split
    all_goals simp
  · unfold ExtensionValidator.validateChatData
    repeat' split
    rotate_right
    · by_cases h1 : ((ExtensionValidator.validateConversationStructure h v).hasId = true ∨
          (ExtensionValidator.validateConversationStructure h v).hasMessages = true)
      · simp [h1]
      · by_cases h2 : (!(List.map (fun x => Prod.fst x)
              (List.filter (fun e => truthyH e.2 && typeofH e.2 == "object" && !isArrH h e.2)
                (getFieldsH h v))).isEmpty) = true
        · simp [h1, h2]
        · simp [h1, h2]
    all_goals simp

/-! ## Claim C6 -/

/-- C6 counterexample: a self-referencing object (its serialization
reveals a cycle, as the jsonSerSize model shows) is accepted as valid by
the extension validateChatData, which never serializes its input; the
validator therefore does not reject exactly the cyclic inputs. -/
theorem claim_C6_counterexample :
    (ExtensionValidator.validateChatData selfRefHeap (.href 0)).isValid = true ∧
    (ExtensionValidator.validateChatData selfRefHeap (.href 0)).errors = [] ∧
    jsonSerSize selfRefHeap (.href 0) = none := by decide

/-- C6 amended: the backend validateChatData rejects exactly the inputs
that are null or undefined, not of object type, or whose serialization
reveals a cycle, and it always terminates; the extension validateChatData
rejects exactly the null, undefined and non-object inputs and accepts a
self-referencing object (it never serializes its input, and also
terminates). -/
theorem claim_C6_amended (h : Heap) (v : HVal) :
    ((BackendValidator.validateChatData h v).isValid = false ↔
      (v = .hnull ∨ v = .hundefined ∨ typeofH v ≠ "object" ∨ jsonSerSize h v = none)) ∧
    ((ExtensionValidator.validateChatData h v).isValid = false ↔
      (v = .hnull ∨ v = .hundefined ∨ typeofH v ≠ "object")) := by
  cases v with
  | hnull =>
    constructor <;>
      simp [BackendValidator.validateChatData, ExtensionValidator.validateChatData]
  | hundefined =>
    constructor <;>
      simp [BackendValidator.validateChatData, ExtensionValidator.validateChatData]
  | hbool b =>
    constructor <;>
      simp [BackendValidator.validateChatData, ExtensionValidator.validateChatData, typeofH]
  | hnum n =>
    constructor <;>
      simp [BackendValidator.validateChatData, ExtensionValidator.validateChatData, typeofH]
  | hstr s =>
    constructor <;>
      simp [BackendValidator.validateChatData, ExtensionValidator.validateChatData, typeofH]
  | href a =>
    have ht : typeofH (HVal.href a) = "object" := rfl
    constructor
    · unfold BackendValidator.validateChatData
      rw [if_neg (by simp), if_neg (by simp [typeofH])]
      rcases hs : jsonSerSize h (.href a) with _ | n <;> simp [hs, ht]
    · unfold ExtensionValidator.validateChatData
      rw [if_neg (by simp), if_neg (by simp [typeofH])]
      rcases hg : getArrH h (.href a) with _ | vs
      · rcases hk : ExtensionValidator.firstConvKey h (.href a) with _ | kv
        · by_cases hc :
            ((ExtensionValidator.validateConversationStructure h (.href a)).hasId = true ∨
             (ExtensionValidator.validateConversationStructure h (.href a)).hasMessages = true)
          · simp [hc, ht]
          · by_cases hn : (!(List.map (fun x => Prod.fst x)
                (List.filter (fun e => truthyH e.2 && typeofH e.2 == "object" && !isArrH h e.2)
                  (getFieldsH h (.href a)))).isEmpty) = true
            · simp [hc, hn, ht]
            · simp [hc, hn, ht]
        · rcases kv with ⟨key, len⟩
          simp [hk, ht]
      · simp [hg, ht]

/-! ## Claim C7 -/

/-- C7 counterexample: two bubbles with equal derived times (none of the
three fields present) keep their insertion order in sortBubbles, even
though the raw key of the second sorts strictly before the raw key of the
first; the tie is not broken by the raw key string. -/
theorem claim_C7_counterexample :
    DbReader.sortBubbles [⟨none, none, none, "z"⟩, ⟨none, none, none, "a"⟩]
        = [⟨none, none, none, "z"⟩, ⟨none, none, none, "a"⟩] ∧
    DbReader.bubbleTime ⟨none, none, none, "z"⟩ = DbReader.bubbleTime ⟨none, none, none, "a"⟩ ∧
    (("a".toList < "z".toList) ∧ "a" ≠ "z") ∧
    ([⟨none, none, none, "z"⟩, ⟨none, none, none, "a"⟩] ≠
      ([⟨none, none, none, "a"⟩, ⟨none, none, none, "z"⟩] : List DbReader.Bubble)) := by
  decide

namespace DbReader

theorem orderedInsert_filter_eq (a : Bubble) (l : List Bubble) (t : Int)
    (ha : bubbleTime a = t) :
    (List.orderedInsert bubbleLe a l).filter (fun b => bubbleTime b == t)
      = a :: l.filter (fun b => bubbleTime b == t) := by
  induction l with
  | nil => simp [List.orderedInsert, ha]
  | cons b l ih =>
    by_cases hr : bubbleLe a b
    · simp [List.orderedInsert, hr, ha]
    · have hb : bubbleTime b ≠ t := by
        unfold bubbleLe at hr
        omega
      simp only [List.orderedInsert, if_neg hr, List.filter_cons]
      simp [hb, ih]

theorem orderedInsert_filter_ne (a : Bubble) (l : List Bubble) (t : Int)
    (ha : bubbleTime a ≠ t) :
    (List.orderedInsert bubbleLe a l).filter (fun b => bubbleTime b == t)
      = l.filter (fun b => bubbleTime b == t) := by
  induction l with
  | nil => simp [List.orderedInsert, ha]
  | cons b l ih =>
    by_cases hr : bubbleLe a b
    · simp [List.orderedInsert, hr, ha]
    · simp only [List.orderedInsert, if_neg hr, List.filter_cons]
      rw [ih]

end DbReader

/-- C7 amended: within a reconstructed conversation the bubbles are
sorted by the derived time (timestamp, else createdAt, else the order
field, zero-valued fields falling through), the ordering is deterministic
and total on that key, and ties keep the insertion order of the bubbles
(Array.prototype.sort is stable) — they are not broken by the raw key
string. -/
theorem claim_C7_amended (l : List DbReader.Bubble) :
    List.Sorted DbReader.bubbleLe (DbReader.sortBubbles l) ∧
    (∀ t : Int, (DbReader.sortBubbles l).filter (fun b => DbReader.bubbleTime b == t)
        = l.filter (fun b => DbReader.bubbleTime b == t)) := by
  constructor
  · exact List.sorted_insertionSort DbReader.bubbleLe l
  · intro t
    unfold DbReader.sortBubbles
    induction l with
    | nil => rfl
    | cons a l ih =>
      show (List.orderedInsert DbReader.bubbleLe a
          (List.insertionSort DbReader.bubbleLe l)).filter
            (fun b => DbReader.bubbleTime b == t) = _
      by_cases ha : DbReader.bubbleTime a = t
      · rw [DbReader.orderedInsert_filter_eq a _ t ha, ih]
        simp [ha]
      · rw [DbReader.orderedInsert_filter_ne a _ t ha, ih]
        simp [ha]

/-! ## Claim C5 -/

/-- C5 counterexample: in an attempt whose upload response remaps the
project id from one to two, the conversation is auto-locked under project
one, but the end-of-attempt release call targets project two: no release
call for the acquired lock (project one) is ever issued during the
attempt. -/
theorem claim_C5_counterexample :
    SyncManager.LockEvent.lockCall 1 "c1" true ∈ SyncManager.syncAttemptEvents SyncManager.remapEnv ∧
    SyncManager.LockEvent.unlockCall 1 "c1" ∉ SyncManager.syncAttemptEvents SyncManager.remapEnv ∧
    SyncManager.LockEvent.unlockCall 2 "c1" ∈ SyncManager.syncAttemptEvents SyncManager.remapEnv := by
  decide

/-- C5 amended: on every exit path of a sync attempt — success, approval
denial and upload failure alike — a release call is issued for every
conversation whose auto lock was acquired; the call carries the project
id current at the end of the attempt, which is the acquisition project id
unless a successful upload response remapped it (in that one case the
release calls target the new project id, so the locks acquired under the
old id are not released). -/
theorem claim_C5_amended (env : SyncManager.SyncEnv) (c : String)
    (hc : c ∈ env.convIds) (hok : env.lockOk c = true) :
    SyncManager.LockEvent.unlockCall (SyncManager.endProjectId env) c
      ∈ SyncManager.syncAttemptEvents env := by
  unfold SyncManager.syncAttemptEvents SyncManager.autoLockPhase
  refine List.mem_append_right _ ?_
  exact List.mem_map_of_mem _ (List.mem_filter.mpr ⟨hc, hok⟩)

/-- C5 witness: in the concrete attempt that fails at upload with one
conversation locked, the release call for it is issued. -/
theorem claim_C5_witness :
    ("c1" ∈ SyncManager.failedUploadEnv.convIds) ∧
    (SyncManager.failedUploadEnv.lockOk "c1" = true) ∧
    SyncManager.LockEvent.unlockCall (SyncManager.endProjectId SyncManager.failedUploadEnv) "c1"
      ∈ SyncManager.syncAttemptEvents SyncManager.failedUploadEnv :=
  ⟨by decide, rfl, claim_C5_amended SyncManager.failedUploadEnv "c1" (by decide) rfl⟩

/-! ## Claim C1 -/

/-- C1, divergence exhibited: the demo backup verifies cleanly (every
recorded checksum matches), yet restoring it under a retention bound of
one backup succeeds while leaving the live global store untouched — the
safety-net backup taken inside restoreBackup triggers pruning, the pruned
set keeps only the fresh backup, the backup being restored is deleted
from disk, and every copy step silently skips.  The claim (and the spec)
say a verified restore copies each backed-up source over its live
path. -/
theorem claim_C1_restore_pruned_silently_skips :
    BackupService.verifyBackup BackupService.pruneDemoBackup = .ok () ∧
    (BackupService.restoreBackup BackupService.pruneDemoState "backup-0").toOption.map
        (fun st => st.liveG) = some (some "current") ∧
    (BackupService.restoreBackup BackupService.pruneDemoState "backup-0").toOption.map
        (fun st => st.backups.map (fun b => b.bid)) = some ["backup-5"] :=
  ⟨rfl, rfl, rfl⟩

/-! ## Merge-engine helper lemmas -/

theorem mergeEntry_preserve (k2 : String) (rv : JVal) (m : List (String × JVal)) (k : String)
    (h : k2 ≠ k) : mapGet (DbWriter.mergeEntry k2 rv m) k = mapGet m k := by
  unfold DbWriter.mergeEntry
  dsimp only
  repeat' split
  all_goals (first | rfl | exact mapGet_mapSet_ne _ _ _ _ h)

theorem mergeFields_preserve (rest : List (String × JVal)) (m : List (String × JVal)) (k : String)
    (h : ∀ e ∈ rest, e.1 ≠ k) : mapGet (DbWriter.mergeFields rest m) k = mapGet m k := by
  induction rest generalizing m with
  | nil => rfl
  | cons e rest ih =>
    obtain ⟨k2, rv⟩ := e
    show mapGet (DbWriter.mergeFields rest (DbWriter.mergeEntry k2 rv m)) k = mapGet m k
    rw [ih _ (fun e he => h e (List.mem_cons_of_mem _ he))]
    exact mergeEntry_preserve k2 rv m k (h (k2, rv) (List.mem_cons_self _ _))

theorem mergeFields_append (xs ys : List (String × JVal)) (m : List (String × JVal)) :
    DbWriter.mergeFields (xs ++ ys) m = DbWriter.mergeFields ys (DbWriter.mergeFields xs m) := by
  induction xs generalizing m with
  | nil => rfl
  | cons e xs ih =>
    obtain ⟨k2, rv⟩ := e
    show DbWriter.mergeFields (xs ++ ys) (DbWriter.mergeEntry k2 rv m) = _
    exact ih _

/-! ## Claim C3 -/

/-- C3 counterexample: for the field chatA — a name containing chat — a
null remote value overwrites the local number five instead of keeping it;
the claim says a null remote value always leaves the local value in
place. -/
theorem claim_C3_counterexample :
    DbWriter.mergeChatHistory (.jobj [("chatA", .jnull)]) (.jobj [("chatA", .jnum 5)])
      = .jobj [("chatA", .jnull)] ∧ JVal.jnull ≠ JVal.jnum 5 :=
  ⟨rfl, fun hcontra => JVal.noConfusion hcontra⟩

/-- C3 amended: for a top-level scalar field present in both inputs of
mergeChatHistory, the result keeps the remote value unless the remote
value is null or undefined and the field name does not contain chat,
conversation or history, in which case the local value is kept; for the
chat-related names the remote value overwrites even when it is null or
undefined. -/
theorem claim_C3_amended (pre post lfs : List (String × JVal)) (k : String) (rv lv : JVal)
    (hpre : ∀ e ∈ pre, e.1 ≠ k) (hpost : ∀ e ∈ post, e.1 ≠ k)
    (hlv : mapGet lfs k = some lv)
    (hprim : isPrimitive rv = true) :
    mapGet (jEntries (DbWriter.mergeChatHistory (.jobj (pre ++ (k, rv) :: post)) (.jobj lfs))) k
      = some (if DbWriter.isChatKey k then rv else if isNullOrUndefined rv then lv else rv) := by
  show mapGet (DbWriter.mergeFields (pre ++ (k, rv) :: post) lfs) k = _
  rw [mergeFields_append]
  have hm1 : mapGet (DbWriter.mergeFields pre lfs) k = some lv := by
    rw [mergeFields_preserve pre lfs k hpre]
    exact hlv
  show mapGet (DbWriter.mergeFields post
      (DbWriter.mergeEntry k rv (DbWriter.mergeFields pre lfs))) k = _
  rw [mergeFields_preserve post _ k hpost]
  cases rv with
  | jarr vs => simp [isPrimitive] at hprim
  | jobj fs => simp [isPrimitive] at hprim
  | jundefined =>
    unfold DbWriter.mergeEntry
    by_cases hck : DbWriter.isChatKey k
    · simp only [hck, if_true]
      exact mapGet_mapSet_self _ _ _
    · simp only [hck, if_false, Bool.false_eq_true, isNullOrUndefined, if_true]
      simpa [hck, isNullOrUndefined] using hm1
  | jnull =>
    unfold DbWriter.mergeEntry
    by_cases hck : DbWriter.isChatKey k
    · simp only [hck, if_true]
      exact mapGet_mapSet_self _ _ _
    · simpa [hck, isNullOrUndefined] using hm1
  | jbool b =>
    unfold DbWriter.mergeEntry
    simpa [isNullOrUndefined] using mapGet_mapSet_self (DbWriter.mergeFields pre lfs) k (JVal.jbool b)
  | jnum n =>
    unfold DbWriter.mergeEntry
    simpa [isNullOrUndefined] using mapGet_mapSet_self (DbWriter.mergeFields pre lfs) k (JVal.jnum n)
  | jstr s =>
    unfold DbWriter.mergeEntry
    simpa [isNullOrUndefined] using mapGet_mapSet_self (DbWriter.mergeFields pre lfs) k (JVal.jstr s)

/-- C3 witness: remote field x with value seven overwrites local value
three (x is not chat-related and seven is neither null nor undefined). -/
theorem claim_C3_witness :
    mapGet [("x", JVal.jnum 3)] "x" = some (.jnum 3) ∧
    isPrimitive (JVal.jnum 7) = true ∧
    mapGet (jEntries (DbWriter.mergeChatHistory (.jobj [("x", .jnum 7)])
        (.jobj [("x", .jnum 3)]))) "x"
      = some (if DbWriter.isChatKey "x" then JVal.jnum 7
              else if isNullOrUndefined (JVal.jnum 7) then JVal.jnum 3 else JVal.jnum 7) :=
  ⟨rfl, rfl,
    claim_C3_amended [] [] [("x", .jnum 3)] "x" (.jnum 7) (.jnum 3)
      (by simp) (by simp) rfl rfl⟩

/-! ## Merge-array helper lemmas -/

theorem buildStep_preserve (items : List JVal) (m : List (String × JVal)) (i : String)
    (h : ∀ x ∈ items, DbWriter.itemKey x ≠ i) :
    mapGet (items.foldl (fun m item => mapSet m (DbWriter.itemKey item) item) m) i
      = mapGet m i := by
  induction items generalizing m with
  | nil => rfl
  | cons x items ih =>
    rw [List.foldl_cons, ih _ (fun y hy => h y (List.mem_cons_of_mem _ hy))]
    exact mapGet_mapSet_ne _ _ _ _ (h x (List.mem_cons_self _ _))

theorem mergeRemoteItem_preserve (m : List (String × JVal)) (x : JVal) (i : String)
    (h : DbWriter.itemKey x ≠ i) :
    mapGet (DbWriter.mergeRemoteItem m x) i = mapGet m i := by
  unfold DbWriter.mergeRemoteItem
  dsimp only
  repeat' split
  all_goals (first | rfl | exact mapGet_mapSet_ne _ _ _ _ h)

theorem phase2_preserve (items : List JVal) (m : List (String × JVal)) (i : String)
    (h : ∀ x ∈ items, DbWriter.itemKey x ≠ i) :
    mapGet (items.foldl DbWriter.mergeRemoteItem m) i = mapGet m i := by
  induction items generalizing m with
  | nil => rfl
  | cons x items ih =>
    rw [List.foldl_cons, ih _ (fun y hy => h y (List.mem_cons_of_mem _ hy))]
    exact mergeRemoteItem_preserve m x i (h x (List.mem_cons_self _ _))

theorem buildMap_lookup (xs ys : List JVal) (v : JVal) (i : String)
    (m0 : List (String × JVal)) (hk : DbWriter.itemKey v = i)
    (hys : ∀ x ∈ ys, DbWriter.itemKey x ≠ i) :
    mapGet ((xs ++ v :: ys).foldl (fun m item => mapSet m (DbWriter.itemKey item) item) m0) i
      = some v := by
  rw [List.foldl_append, List.foldl_cons, buildStep_preserve ys _ i hys, hk]
  exact mapGet_mapSet_self _ _ _

theorem mem_sortByTimestamp (items : List JVal) (v : JVal) (h : v ∈ items) :
    v ∈ DbWriter.sortByTimestamp items :=
  (List.perm_insertionSort DbWriter.itemLe items).mem_iff.mpr h

theorem mergeRemoteItem_update (m : List (String × JVal)) (v2 v1 : JVal) (i : String)
    (x2 x1 : JVal) (hk2 : DbWriter.itemKey v2 = i) (hm : mapGet m i = some v1)
    (ht2 : DbWriter.getItemTimestamp v2 = some x2)
    (ht1 : DbWriter.getItemTimestamp v1 = some x1)
    (hgt : DbWriter.dateGT x2 x1 = true) :
    DbWriter.mergeRemoteItem m v2 = mapSet m i v2 := by
  unfold DbWriter.mergeRemoteItem
  dsimp only
  rw [hk2, hm]
  dsimp only
  rw [ht2, ht1]
  dsimp only
  rw [if_pos hgt]

theorem mergeRemoteItem_keep (m : List (String × JVal)) (v2 v1 : JVal) (i : String)
    (x2 x1 : JVal) (hk2 : DbWriter.itemKey v2 = i) (hm : mapGet m i = some v1)
    (ht2 : DbWriter.getItemTimestamp v2 = some x2)
    (ht1 : DbWriter.getItemTimestamp v1 = some x1)
    (hgt : DbWriter.dateGT x2 x1 = false) :
    DbWriter.mergeRemoteItem m v2 = m := by
  unfold DbWriter.mergeRemoteItem
  dsimp only
  rw [hk2, hm]
  dsimp only
  rw [ht2, ht1]
  dsimp only
  rw [if_neg (by rw [hgt]; exact Bool.false_ne_true)]

/-! ## Claim C2 -/

/-- C2: newest wins in mergeArrays.  Two versions of the same derived id,
each appearing exactly once in its array, carrying numeric timestamps
with t1 strictly older than t2: the t2 version is in the merged result
both when it sits on the remote side (second argument) and when it sits
on the local side (first argument). -/
theorem claim_C2_newest_wins (X Y U W : List JVal) (v1 v2 : JVal) (i : String) (t1 t2 : Int)
    (hk1 : DbWriter.itemKey v1 = i) (hk2 : DbWriter.itemKey v2 = i)
    (hX : ∀ x ∈ X, DbWriter.itemKey x ≠ i) (hY : ∀ x ∈ Y, DbWriter.itemKey x ≠ i)
    (hU : ∀ x ∈ U, DbWriter.itemKey x ≠ i) (hW : ∀ x ∈ W, DbWriter.itemKey x ≠ i)
    (ht1 : DbWriter.getItemTimestamp v1 = some (.jnum t1))
    (ht2 : DbWriter.getItemTimestamp v2 = some (.jnum t2))
    (hlt : t1 < t2) :
    v2 ∈ DbWriter.mergeArrays (X ++ v1 :: Y) (U ++ v2 :: W) ∧
    v2 ∈ DbWriter.mergeArrays (U ++ v2 :: W) (X ++ v1 :: Y) := by
  have hgtTrue : DbWriter.dateGT (.jnum t2) (.jnum t1) = true := by
    simp [DbWriter.dateGT, DbWriter.dateMillis]
    omega
  have hgtFalse : DbWriter.dateGT (.jnum t1) (.jnum t2) = false := by
    simp [DbWriter.dateGT, DbWriter.dateMillis]
    omega
  constructor
  · unfold DbWriter.mergeArrays
    dsimp only
    apply mem_sortByTimestamp
    apply mem_values_of_mapGet _ i
    rw [List.foldl_append, List.foldl_cons, phase2_preserve W _ i hW]
    have hmU : mapGet ((U).foldl DbWriter.mergeRemoteItem
        ((X ++ v1 :: Y).foldl (fun m item => mapSet m (DbWriter.itemKey item) item) [])) i
        = some v1 := by
      rw [phase2_preserve U _ i hU]
      exact buildMap_lookup X Y v1 i [] hk1 hY
    rw [mergeRemoteItem_update _ v2 v1 i _ _ hk2 hmU ht2 ht1 hgtTrue]
    exact mapGet_mapSet_self _ _ _
  · unfold DbWriter.mergeArrays
    dsimp only
    apply mem_sortByTimestamp
    apply mem_values_of_mapGet _ i
    rw [List.foldl_append, List.foldl_cons, phase2_preserve Y _ i hY]
    have hmX : mapGet ((X).foldl DbWriter.mergeRemoteItem
        ((U ++ v2 :: W).foldl (fun m item => mapSet m (DbWriter.itemKey item) item) [])) i
        = some v2 := by
      rw [phase2_preserve X _ i hX]
      exact buildMap_lookup U W v2 i [] hk2 hW
    rw [mergeRemoteItem_keep _ v1 v2 i _ _ hk1 hmX ht1 ht2 hgtFalse]
    exact hmX

/-- C2 witness: two one-element arrays holding versions of id a with
timestamps one and two; the newer version is in the merge both ways. -/
theorem claim_C2_witness :
    DbWriter.itemKey (.jobj [("id", .jstr "a"), ("timestamp", .jnum 1)]) = "a" ∧
    DbWriter.itemKey (.jobj [("id", .jstr "a"), ("timestamp", .jnum 2)]) = "a" ∧
    DbWriter.getItemTimestamp (.jobj [("id", .jstr "a"), ("timestamp", .jnum 1)])
      = some (.jnum 1) ∧
    DbWriter.getItemTimestamp (.jobj [("id", .jstr "a"), ("timestamp", .jnum 2)])
      = some (.jnum 2) ∧
    (JVal.jobj [("id", .jstr "a"), ("timestamp", .jnum 2)]) ∈
      DbWriter.mergeArrays [.jobj [("id", .jstr "a"), ("timestamp", .jnum 1)]]
        [.jobj [("id", .jstr "a"), ("timestamp", .jnum 2)]] ∧
    (JVal.jobj [("id", .jstr "a"), ("timestamp", .jnum 2)]) ∈
      DbWriter.mergeArrays [.jobj [("id", .jstr "a"), ("timestamp", .jnum 2)]]
        [.jobj [("id", .jstr "a"), ("timestamp", .jnum 1)]] := by
  have hmain := claim_C2_newest_wins [] [] [] []
    (.jobj [("id", .jstr "a"), ("timestamp", .jnum 1)])
    (.jobj [("id", .jstr "a"), ("timestamp", .jnum 2)]) "a" 1 2
    rfl rfl (by simp) (by simp) (by simp) (by simp) rfl rfl (by omega)
  exact ⟨rfl, rfl, rfl, rfl, hmain.1, hmain.2⟩

/-! ## Claim C4 -/

theorem buildMap_fresh (items : List JVal) (m : List (String × JVal))
    (hfresh : ∀ x ∈ items, DbWriter.itemKey x ∉ m.map Prod.fst)
    (hnd : (items.map DbWriter.itemKey).Nodup) :
    items.foldl (fun m item => mapSet m (DbWriter.itemKey item) item) m
      = m ++ items.map (fun x => (DbWriter.itemKey x, x)) := by
  induction items generalizing m with
  | nil => simp
  | cons x items ih =>
    rw [List.foldl_cons, mapSet_fresh _ _ _ (hfresh x (List.mem_cons_self _ _))]
    rw [ih]
    · simp
    · intro y hy
      simp only [List.map_append, List.mem_append, List.map_cons, List.map_nil,
        List.mem_singleton]
      rintro (hin | hkey)
      · exact hfresh y (List.mem_cons_of_mem _ hy) hin
      · have : DbWriter.itemKey x ∈ items.map DbWriter.itemKey :=
          hkey ▸ List.mem_map_of_mem _ hy
        exact (List.nodup_cons.mp hnd).1 this
    · exact (List.nodup_cons.mp hnd).2

theorem mergeRemoteItem_fresh (m : List (String × JVal)) (x : JVal)
    (hfresh : DbWriter.itemKey x ∉ m.map Prod.fst) :
    DbWriter.mergeRemoteItem m x = mapSet m (DbWriter.itemKey x) x := by
  unfold DbWriter.mergeRemoteItem
  dsimp only
  rw [mapGet_eq_none_of_not_mem _ _ hfresh]

theorem phase2_fresh (items : List JVal) (m : List (String × JVal))
    (hfresh : ∀ x ∈ items, DbWriter.itemKey x ∉ m.map Prod.fst)
    (hnd : (items.map DbWriter.itemKey).Nodup) :
    items.foldl DbWriter.mergeRemoteItem m
      = m ++ items.map (fun x => (DbWriter.itemKey x, x)) := by
  induction items generalizing m with
  | nil => simp
  | cons x items ih =>
    rw [List.foldl_cons, mergeRemoteItem_fresh _ _ (hfresh x (List.mem_cons_self _ _)),
      mapSet_fresh _ _ _ (hfresh x (List.mem_cons_self _ _))]
    rw [ih]
    · simp
    · intro y hy
      simp only [List.map_append, List.mem_append, List.map_cons, List.map_nil,
        List.mem_singleton]
      rintro (hin | hkey)
      · exact hfresh y (List.mem_cons_of_mem _ hy) hin
      · have : DbWriter.itemKey x ∈ items.map DbWriter.itemKey :=
          hkey ▸ List.mem_map_of_mem _ hy
        exact (List.nodup_cons.mp hnd).1 this
    · exact (List.nodup_cons.mp hnd).2

theorem mergeArrays_disjoint_values (A B : List JVal)
    (hnd : ((A ++ B).map DbWriter.itemKey).Nodup) :
    DbWriter.mergeArrays A B = DbWriter.sortByTimestamp (A ++ B) := by
  have hmap : (A ++ B).map DbWriter.itemKey
      = A.map DbWriter.itemKey ++ B.map DbWriter.itemKey := List.map_append _ _ _
  rw [hmap] at hnd
  obtain ⟨hndA, hndB, hdisj⟩ := List.nodup_append.mp hnd
  unfold DbWriter.mergeArrays
  dsimp only
  rw [buildMap_fresh A [] (by simp) hndA]
  rw [List.nil_append]
  rw [phase2_fresh B (A.map (fun x => (DbWriter.itemKey x, x)))
    (by
      intro y hy hin
      simp only [List.map_map] at hin
      have hin2 : DbWriter.itemKey y ∈ A.map DbWriter.itemKey := by
        simpa [Function.comp] using hin
      exact hdisj hin2 (List.mem_map_of_mem _ hy)) hndB]
  have hvals : ((A.map (fun x => (DbWriter.itemKey x, x))
      ++ B.map (fun x => (DbWriter.itemKey x, x))).map Prod.snd) = A ++ B := by
    simp only [List.map_append, List.map_map]
    rw [show (Prod.snd ∘ fun x : JVal => (DbWriter.itemKey x, x)) = id from rfl]
    simp
  rw [hvals]

/-- C4: for arrays A and B whose items have pairwise distinct derived
ids, the merged array has length of A plus length of B and contains every
item of A and of B, for both orders of the arguments. -/
theorem claim_C4_disjoint_union (A B : List JVal)
    (hnd : ((A ++ B).map DbWriter.itemKey).Nodup) :
    ((DbWriter.mergeArrays A B).length = A.length + B.length ∧
      ∀ x ∈ A ++ B, x ∈ DbWriter.mergeArrays A B) ∧
    ((DbWriter.mergeArrays B A).length = A.length + B.length ∧
      ∀ x ∈ A ++ B, x ∈ DbWriter.mergeArrays B A) := by
  have hnd2 : ((B ++ A).map DbWriter.itemKey).Nodup :=
    (List.perm_append_comm.map DbWriter.itemKey).nodup_iff.mp hnd
  have h1 := mergeArrays_disjoint_values A B hnd
  have h2 := mergeArrays_disjoint_values B A hnd2
  have hperm1 : List.Perm (DbWriter.mergeArrays A B) (A ++ B) := by
    rw [h1]
    exact List.perm_insertionSort DbWriter.itemLe (A ++ B)
  have hperm2 : List.Perm (DbWriter.mergeArrays B A) (B ++ A) := by
    rw [h2]
    exact List.perm_insertionSort DbWriter.itemLe (B ++ A)
  refine ⟨⟨?_, ?_⟩, ?_, ?_⟩
  · rw [hperm1.length_eq]
    simp
  · intro x hx
    exact hperm1.mem_iff.mpr hx
  · rw [hperm2.length_eq]
    simp [Nat.add_comm]
  · intro x hx
    refine hperm2.mem_iff.mpr ?_
    exact List.perm_append_comm.mem_iff.mpr hx

/-- C4 witness: singleton arrays with distinct ids a and b merge to a
two-element array containing both items, in both argument orders. -/
theorem claim_C4_witness :
    (([JVal.jobj [("id", .jstr "a")]] ++ [JVal.jobj [("id", .jstr "b")]]).map
        DbWriter.itemKey).Nodup ∧
    (DbWriter.mergeArrays [.jobj [("id", .jstr "a")]] [.jobj [("id", .jstr "b")]]).length = 2 ∧
    (JVal.jobj [("id", .jstr "a")]) ∈
      DbWriter.mergeArrays [.jobj [("id", .jstr "a")]] [.jobj [("id", .jstr "b")]] ∧
    (JVal.jobj [("id", .jstr "b")]) ∈
      DbWriter.mergeArrays [.jobj [("id", .jstr "b")]] [.jobj [("id", .jstr "a")]] := by
  have hnd : (([JVal.jobj [("id", .jstr "a")]] ++ [JVal.jobj [("id", .jstr "b")]]).map
      DbWriter.itemKey).Nodup := by
    show (["a", "b"] : List String).Nodup
    decide
  have hmain := claim_C4_disjoint_union [.jobj [("id", .jstr "a")]]
    [.jobj [("id", .jstr "b")]] hnd
  refine ⟨hnd, hmain.1.1, ?_, ?_⟩
  · exact hmain.1.2 _ (by simp)
  · exact hmain.2.2 _ (by simp)

/-! ## Claim C8 -/

set_option maxRecDepth 8000 in
/-- C8 counterexample: a non-array object with no truthy id-like field is
nevertheless registered as a whole-value conversation (its synthetic hash
id makes the direct-id check pass), so the claimed only-when condition
fails. -/
theorem claim_C8_counterexample :
    ConversationIdExtractor.carriesIdField (.jobj [("foo", .jnum 1)]) = false ∧
    (ConversationIdExtractor.extractConversations (.jobj [("foo", .jnum 1)])).map Prod.snd
      = [.jobj [("foo", .jnum 1)]] :=
  ⟨rfl, rfl⟩

theorem foldl_registerNested_preserve (fs : List (String × JVal))
    (m : List (String × JVal)) (d : String)
    (hcol : d ∉ ConversationIdExtractor.strategy4Keys fs) :
    mapGet (fs.foldl ConversationIdExtractor.registerNested m) d = mapGet m d := by
  induction fs generalizing m with
  | nil => rfl
  | cons e fs ih =>
    by_cases h1 : (e.2.jsTruthy && e.2.typeOf == "object" && !e.2.isArr) = true
    · by_cases h2 : (ConversationIdExtractor.extractConversationId e.2 0 ≠ ""
          ∧ ConversationIdExtractor.extractConversationId e.2 0 ≠ "0")
      · have hkeys : ConversationIdExtractor.strategy4Keys (e :: fs)
            = (e.1 ++ "_" ++ ConversationIdExtractor.extractConversationId e.2 0)
              :: ConversationIdExtractor.strategy4Keys fs := by
          unfold ConversationIdExtractor.strategy4Keys
          rw [if_pos h1]
          dsimp only
          rw [if_pos h2]
          exact congrArg _ (ConversationIdExtractor.strategy4Keys.eq_def fs)
        rw [hkeys, List.mem_cons] at hcol
        push_neg at hcol
        have hstep : ConversationIdExtractor.registerNested m e
            = mapSet m (e.1 ++ "_" ++ ConversationIdExtractor.extractConversationId e.2 0) e.2 := by
          unfold ConversationIdExtractor.registerNested
          rw [if_pos h1]
          dsimp only
          rw [if_pos h2]
        rw [List.foldl_cons, hstep, ih _ hcol.2]
        exact mapGet_mapSet_ne _ _ _ _ (fun hk => hcol.1 hk.symm)
      · have hkeys : ConversationIdExtractor.strategy4Keys (e :: fs)
            = ConversationIdExtractor.strategy4Keys fs := by
          unfold ConversationIdExtractor.strategy4Keys
          rw [if_pos h1]
          dsimp only
          rw [if_neg h2]
          exact ConversationIdExtractor.strategy4Keys.eq_def fs
        rw [hkeys] at hcol
        have hstep : ConversationIdExtractor.registerNested m e = m := by
          unfold ConversationIdExtractor.registerNested
          rw [if_pos h1]
          dsimp only
          rw [if_neg h2]
        rw [List.foldl_cons, hstep, ih _ hcol]
    · have hkeys : ConversationIdExtractor.strategy4Keys (e :: fs)
          = ConversationIdExtractor.strategy4Keys fs := by
        unfold ConversationIdExtractor.strategy4Keys
        rw [if_neg h1]
        exact ConversationIdExtractor.strategy4Keys.eq_def fs
      rw [hkeys] at hcol
      have hstep : ConversationIdExtractor.registerNested m e = m := by
        unfold ConversationIdExtractor.registerNested
        rw [if_neg h1]
      rw [List.foldl_cons, hstep, ih _ hcol]

/-- C8 amended: a non-array object is registered as one additional
whole-value conversation exactly by the direct-id check: whenever its
derived id (a truthy id-like field converted to a string, else the
hash-prefixed content hash) is neither the empty string nor the string 0,
and no strategy-four composite key collides with that id, the whole value
sits in the extracted map under the derived id.  In particular an object
with no id-like field is still registered (under its synthetic hash id),
while an object whose id field converts to the string 0 is not. -/
theorem claim_C8_amended (fs : List (String × JVal))
    (hne : ConversationIdExtractor.extractConversationId (.jobj fs) 0 ≠ "")
    (hid : ConversationIdExtractor.extractConversationId (.jobj fs) 0 ≠ "0")
    (hcol : ConversationIdExtractor.extractConversationId (.jobj fs) 0
        ∉ ConversationIdExtractor.strategy4Keys fs) :
    mapGet (ConversationIdExtractor.extractConversations (.jobj fs))
        (ConversationIdExtractor.extractConversationId (.jobj fs) 0) = some (.jobj fs) := by
  unfold ConversationIdExtractor.extractConversations
  rw [if_neg (by simp [JVal.jsTruthy, JVal.typeOf])]
  dsimp only [jEntries]
  rw [foldl_registerNested_preserve fs _ _ hcol]
  rw [if_pos ⟨hne, hid⟩]
  exact mapGet_mapSet_self _ _ _

set_option maxRecDepth 8000 in
/-- C8 witness: the id-less object with the single field foo is
registered under its synthetic hash id. -/
theorem claim_C8_witness :
    ConversationIdExtractor.extractConversationId (.jobj [("foo", .jnum 1)]) 0 ≠ "" ∧
    ConversationIdExtractor.extractConversationId (.jobj [("foo", .jnum 1)]) 0 ≠ "0" ∧
    ConversationIdExtractor.strategy4Keys [("foo", JVal.jnum 1)] = [] ∧
    mapGet (ConversationIdExtractor.extractConversations (.jobj [("foo", .jnum 1)]))
        (ConversationIdExtractor.extractConversationId (.jobj [("foo", .jnum 1)]) 0)
      = some (.jobj [("foo", .jnum 1)]) :=
  ⟨by decide, by decide, rfl,
    claim_C8_amended [("foo", .jnum 1)] (by decide) (by decide)
      (List.not_mem_nil _)⟩

/-! ## Claim C9 -/

theorem reconstructStep_preserve (filtered res : List (String × JVal)) (key k : String)
    (hne : key ≠ k) :
    mapGet (ConversationIdExtractor.reconstructStep filtered res key) k = mapGet res k := by
  unfold ConversationIdExtractor.reconstructStep
  cases hg : mapGet res key with
  | none => rfl
  | some v =>
    dsimp only
    split
    · exact mapGet_mapSet_ne _ _ _ _ hne
    · rfl

theorem foldl_reconstruct_preserve (keys : List String)
    (filtered res : List (String × JVal)) (k : String) (hk : k ∉ keys) :
    mapGet (keys.foldl (ConversationIdExtractor.reconstructStep filtered) res) k
      = mapGet res k := by
  induction keys generalizing res with
  | nil => rfl
  | cons key keys ih =>
    rw [List.foldl_cons, ih _ (fun h => hk (List.mem_cons_of_mem _ h))]
    exact reconstructStep_preserve filtered res key k
      (fun h => hk (h ▸ List.mem_cons_self _ _))

/-- C9: filterExcludedConversations on a non-array object with a
non-empty exclusion set leaves every top-level field whose name is not
one of the six recognized conversation-array field names unchanged. -/
theorem claim_C9_frame (fs : List (String × JVal)) (excludedIds : List String) (k : String)
    (hk : k ∉ ConversationIdExtractor.conversationKeys)
    (hx : excludedIds ≠ []) :
    (ConversationIdExtractor.filterExcludedConversations (.jobj fs) excludedIds).jGet k
      = (JVal.jobj fs).jGet k := by
  unfold ConversationIdExtractor.filterExcludedConversations
  rw [if_neg (by simp [JVal.jsTruthy, hx])]
  unfold ConversationIdExtractor.reconstructChatData
  dsimp only [jEntries]
  show (mapGet (ConversationIdExtractor.conversationKeys.foldl
      (ConversationIdExtractor.reconstructStep _) fs) k).getD .jundefined
    = (mapGet fs k).getD .jundefined
  rw [foldl_reconstruct_preserve ConversationIdExtractor.conversationKeys _ fs k hk]

/-- C9 witness: the non-conversation field x with an exclusion set of one
id is unchanged by the filter. -/
theorem claim_C9_witness :
    ("x" ∉ ConversationIdExtractor.conversationKeys) ∧
    (["gone"] ≠ ([] : List String)) ∧
    (ConversationIdExtractor.filterExcludedConversations
        (.jobj [("x", .jnum 1)]) ["gone"]).jGet "x"
      = (JVal.jobj [("x", .jnum 1)]).jGet "x" :=
  ⟨by decide, by decide,
    claim_C9_frame [("x", .jnum 1)] ["gone"] "x" (by decide) (by decide)⟩
